import Mathlib

/-
Shallow embedding of the memory store in
src/amplifier_module_tool_memory/store.py (class MemoryStore), together
with theorems checking the specified behaviour of its operations.

Modelling conventions:
* The `memories` SQLite table is a `List MemRow` kept in rowid
  (insertion) order; `session_summaries` is a `List SumRow`.
* Python floats (`importance`, scores) are modelled as `Rat`; the values
  involved (clamp bounds, small literals) are exact in both.
* `uuid.uuid4()` and `datetime.now()` are nondeterministic, so `add` and
  `get_timeline` take the generated id / current epoch as explicit
  parameters.
* JSON-serialized list columns (`facts_json`, `tags_json`, ...) are kept
  as the serialized strings; `jsonDumps` models `json.dumps` on a list of
  strings (common escapes only; the inputs used in concrete theorems are
  plain ASCII). The `metadata` dict is carried directly as its serialized
  string since no operation inspects it.
* A returned `Memory` dataclass is represented by the corresponding row
  value: `_row_to_memory` is a field-by-field conversion and every claim
  only inspects fields that transfer verbatim.
* SQL `ORDER BY` clauses are modelled as a stable insertion sort over the
  rowid-ordered list (ties beyond the listed keys stay in rowid order,
  matching SQLite's behaviour on these queries); `LIMIT n` is `take n`;
  `LIKE '%pat%'` is an ASCII-case-insensitive substring test (SQLite LIKE
  is case-insensitive for ASCII; patterns used contain no wildcards).
-/

set_option maxRecDepth 16384

namespace MemStore

/-- OBSERVATION_TYPES from store.py. -/
def OBSERVATION_TYPES : List String :=
  ["bugfix", "feature", "refactor", "change", "discovery", "decision"]

/-- MEMORY_CATEGORIES from store.py. -/
def MEMORY_CATEGORIES : List String :=
  ["learning", "decision", "issue_solved", "preference", "pattern",
   "recipe", "coding_style", "tech_stack", "project_context",
   "communication", "general"]

/-- ASCII lower-casing of one character (model of str.lower / SQLite LIKE folding). -/
def lowerChar (c : Char) : Char :=
  if 'A' ≤ c ∧ c ≤ 'Z' then Char.ofNat (c.toNat + 32) else c

/-- ASCII lower-casing of a string. -/
def lowerStr (s : String) : String := String.mk (s.data.map lowerChar)

/-- Python str.split() whitespace (ASCII part). -/
def isPySpace (c : Char) : Bool :=
  c = ' ' || c = '\t' || c = '\n' || c = '\r' || c = '\x0b' || c = '\x0c'

/-- Split a character list at every separator, keeping (possibly empty)
chunks between consecutive separators. -/
def splitChars (p : Char → Bool) : List Char → List Char → List (List Char)
  | [], acc => [acc.reverse]
  | c :: cs, acc =>
    if p c then acc.reverse :: splitChars p cs [] else splitChars p cs (c :: acc)

/-- Python query.split(): split on whitespace, dropping empty pieces
(hence splitting on whitespace runs and ignoring edges). -/
def splitTerms (s : String) : List String :=
  ((splitChars isPySpace s.data []).map String.mk).filter (fun t => t ≠ "")

/-- Leading-run test on character lists: needle begins hay. -/
def charsLead : List Char → List Char → Bool
  | [], _ => true
  | _ :: _, [] => false
  | a :: as, b :: bs => a == b && charsLead as bs

/-- Substring test on character lists. -/
def charsSub (needle : List Char) : List Char → Bool
  | [] => needle.isEmpty
  | b :: bs => charsLead needle (b :: bs) || charsSub needle bs

/-- Python's `needle in hay` substring containment. -/
def strIn (needle hay : String) : Bool := charsSub needle.data hay.data

/-- JSON string escaping for the characters appearing in practice. -/
def jsonEscChar (c : Char) : String :=
  if c = '"' then "\\\""
  else if c = '\\' then "\\\\"
  else if c = '\n' then "\\n"
  else if c = '\t' then "\\t"
  else if c = '\r' then "\\r"
  else String.singleton c

/-- json.dumps on a single string. -/
def jsonStr (s : String) : String :=
  "\"" ++ String.join (s.data.map jsonEscChar) ++ "\""

/-- json.dumps on a list of strings (default separators: comma-space). -/
def jsonDumps (xs : List String) : String :=
  "[" ++ String.intercalate ", " (xs.map jsonStr) ++ "]"

/-- One row of the `memories` table (the display `created_at` string is
omitted: it is derived from the same instant as `created_at_epoch` and
never consulted by any modelled operation). -/
structure MemRow where
  id : String
  type : String
  title : String
  subtitle : String
  content : String
  facts_json : String
  concepts_json : String
  files_read_json : String
  files_modified_json : String
  session_id : Option String
  project : Option String
  category : String
  importance : Rat
  tags_json : String
  metadata_json : String
  created_at_epoch : Int
  accessed_count : Nat
  discovery_tokens : Int
deriving DecidableEq

/-- One row of the `session_summaries` table. -/
structure SumRow where
  id : String
  session_id : String
  project : Option String
  request : String
  investigated : String
  learned : String
  completed : String
  next_steps : String
  notes : String
  files_read_json : String
  files_edited_json : String
  discovery_tokens : Int
  created_at_epoch : Int
deriving DecidableEq

/-- The store: table contents in rowid order plus the configured bound. -/
structure StoreState where
  memories : List MemRow
  summaries : List SumRow
  maxMemories : Nat
deriving DecidableEq

/-- A store over an empty database. -/
def emptyStore (maxMemories : Nat) : StoreState :=
  { memories := [], summaries := [], maxMemories := maxMemories }

/-- Stable insertion of an element into a list (earlier elements stay
first on ties), used to model SQL ORDER BY. -/
def insertLe (le : α → α → Bool) (a : α) : List α → List α
  | [] => [a]
  | b :: bs => if le a b then a :: b :: bs else b :: insertLe le a bs

/-- Stable insertion sort modelling SQL ORDER BY on the rowid-ordered list. -/
def sortLe (le : α → α → Bool) : List α → List α
  | [] => []
  | a :: as => insertLe le a (sortLe le as)

/-- ORDER BY accessed_count ASC, created_at_epoch ASC (from _enforce_limit). -/
def evictLe (a b : MemRow) : Bool :=
  decide (a.accessed_count < b.accessed_count) ||
    (decide (a.accessed_count = b.accessed_count) &&
      decide (a.created_at_epoch ≤ b.created_at_epoch))

/-- ORDER BY importance DESC, created_at_epoch DESC. -/
def impEpochLe (a b : MemRow) : Bool :=
  decide (b.importance < a.importance) ||
    (decide (a.importance = b.importance) &&
      decide (b.created_at_epoch ≤ a.created_at_epoch))

/-- ORDER BY created_at_epoch DESC on memory rows. -/
def epochDescLe (a b : MemRow) : Bool :=
  decide (b.created_at_epoch ≤ a.created_at_epoch)

/-- ORDER BY created_at_epoch DESC on summary rows. -/
def epochDescLeS (a b : SumRow) : Bool :=
  decide (b.created_at_epoch ≤ a.created_at_epoch)

/-- Descending-by-score comparison on (score, row) pairs, modelling
`results.sort(key=lambda x: x[0], reverse=True)` (stable). -/
def scorePairLe (x y : Rat × MemRow) : Bool := decide (y.1 ≤ x.1)

/-- Product of rationals, written out on numerator and denominator so that
it evaluates inside the kernel (`Rat.mul` is irreducible); `ratMul_eq_mul`
shows it is ordinary multiplication. -/
def ratMul (a b : Rat) : Rat := mkRat (a.num * b.num) (a.den * b.den)

/-- `_enforce_limit`: when over the configured maximum, delete the rows
whose ids are selected by ORDER BY accessed_count ASC, created_at_epoch
ASC LIMIT (count - max). -/
def enforce_limit (st : StoreState) : StoreState :=
  if st.memories.length ≤ st.maxMemories then st
  else
    let victims :=
      ((sortLe evictLe st.memories).take (st.memories.length - st.maxMemories)).map
        (fun m => m.id)
    { st with memories := st.memories.filter (fun m => decide (m.id ∉ victims)) }

/-- Caller-supplied arguments of `MemoryStore.add`, with the Python
defaults; list arguments are given after the `x or []` defaulting. -/
structure AddArgs where
  content : String
  type : String := "change"
  title : String := ""
  subtitle : String := ""
  facts : List String := []
  concepts : List String := []
  files_read : List String := []
  files_modified : List String := []
  session_id : Option String := none
  project : Option String := none
  category : String := "general"
  importance : Rat := mkRat 1 2
  tags : List String := []
  metadata_json : String := "\x7b\x7d"
  discovery_tokens : Int := 0

/-- `MemoryStore.add`: normalize type/category, clamp importance,
auto-derive the title, insert the row (accessed_count 0), then enforce
the limit. Returns the created record (as its row) and the new state.
`newId` stands for the generated uuid4 and `nowEpoch` for the insertion
epoch in milliseconds. -/
def add (args : AddArgs) (newId : String) (nowEpoch : Int) (st : StoreState) :
    MemRow × StoreState :=
  let ty := if args.type ∈ OBSERVATION_TYPES then args.type else "change"
  let cat := if args.category ∈ MEMORY_CATEGORIES then args.category else "general"
  let imp := max 0 (min 1 args.importance)
  let title :=
    if args.title = "" ∧ args.content ≠ "" then
      args.content.take 50 ++ (if 50 < args.content.length then "..." else "")
    else args.title
  let row : MemRow :=
    { id := newId, type := ty, title := title, subtitle := args.subtitle,
      content := args.content, facts_json := jsonDumps args.facts,
      concepts_json := jsonDumps args.concepts,
      files_read_json := jsonDumps args.files_read,
      files_modified_json := jsonDumps args.files_modified,
      session_id := args.session_id, project := args.project,
      category := cat, importance := imp, tags_json := jsonDumps args.tags,
      metadata_json := args.metadata_json, created_at_epoch := nowEpoch,
      accessed_count := 0, discovery_tokens := args.discovery_tokens }
  (row, enforce_limit { st with memories := st.memories ++ [row] })

/-- `MemoryStore.get`: fetch the row, then increment accessed_count.
The returned record is built from the row as fetched, i.e. before the
increment. -/
def get (id : String) (st : StoreState) : Option MemRow × StoreState :=
  match st.memories.find? (fun m => decide (m.id = id)) with
  | none => (none, st)
  | some row =>
    (some row,
      { st with
        memories := st.memories.map (fun m =>
          if m.id = id then { m with accessed_count := m.accessed_count + 1 } else m) })

/-- Caller-supplied arguments of `MemoryStore.update` (None = absent). -/
structure UpdateArgs where
  content : Option String := none
  type : Option String := none
  title : Option String := none
  subtitle : Option String := none
  facts : Option (List String) := none
  concepts : Option (List String) := none
  category : Option String := none
  importance : Option Rat := none
  tags : Option (List String) := none
deriving DecidableEq

/-- Whether `update` builds a non-empty `updates` list: each present
field contributes, except `type`/`category` also need to pass the
closed-set validation. -/
def updateApplies (a : UpdateArgs) : Bool :=
  a.content.isSome ||
    (match a.type with
      | some t => decide (t ∈ OBSERVATION_TYPES)
      | none => false) ||
    a.title.isSome || a.subtitle.isSome || a.facts.isSome || a.concepts.isSome ||
    (match a.category with
      | some c => decide (c ∈ MEMORY_CATEGORIES)
      | none => false) ||
    a.importance.isSome || a.tags.isSome

/-- Net effect of the SQL UPDATE built by `MemoryStore.update` on the
targeted row: each textually present (and, for enums, valid) field is
set; importance is re-clamped; list fields are re-serialized. -/
def applyUpdate (a : UpdateArgs) (m : MemRow) : MemRow :=
  { m with
    content := a.content.getD m.content,
    type := match a.type with
      | some t => if t ∈ OBSERVATION_TYPES then t else m.type
      | none => m.type,
    title := a.title.getD m.title,
    subtitle := a.subtitle.getD m.subtitle,
    facts_json := (a.facts.map jsonDumps).getD m.facts_json,
    concepts_json := (a.concepts.map jsonDumps).getD m.concepts_json,
    category := match a.category with
      | some c => if c ∈ MEMORY_CATEGORIES then c else m.category
      | none => m.category,
    importance := match a.importance with
      | some i => max 0 (min 1 i)
      | none => m.importance,
    tags_json := (a.tags.map jsonDumps).getD m.tags_json }

/-- `MemoryStore.update`: read the record via `get` (which increments
accessed_count); absent id returns None; with no applicable fields the
snapshot from that `get` is returned; otherwise the UPDATE is applied
and the row re-read via a second `get`. -/
def update (id : String) (a : UpdateArgs) (st : StoreState) :
    Option MemRow × StoreState :=
  match get id st with
  | (none, _) => (none, st)
  | (some existing, st1) =>
    if updateApplies a then
      get id
        { st1 with
          memories := st1.memories.map (fun m =>
            if m.id = id then applyUpdate a m else m) }
    else (some existing, st1)

/-- `MemoryStore.delete`: DELETE WHERE id = ?; returns rowcount > 0. -/
def delete (id : String) (st : StoreState) : Bool × StoreState :=
  (st.memories.any (fun m => decide (m.id = id)),
    { st with memories := st.memories.filter (fun m => decide (m.id ≠ id)) })

/-- `MemoryStore.count`. -/
def count (st : StoreState) : Nat := st.memories.length

/-- SQL `AND type = ?`, added only when the Python argument is truthy
(non-None and non-empty). -/
def passesType (ty : Option String) (m : MemRow) : Bool :=
  match ty with
  | none => true
  | some t => decide (t = "") || decide (m.type = t)

/-- SQL `AND project = ?` on memory rows (NULL project never equals). -/
def passesProj (proj : Option String) (m : MemRow) : Bool :=
  match proj with
  | none => true
  | some p =>
    decide (p = "") ||
      (match m.project with
        | some q => decide (q = p)
        | none => false)

/-- SQL `AND project = ?` on summary rows. -/
def passesProjS (proj : Option String) (s : SumRow) : Bool :=
  match proj with
  | none => true
  | some p =>
    decide (p = "") ||
      (match s.project with
        | some q => decide (q = p)
        | none => false)

/-- The lowered concatenation of row fields scanned by the fallback
search: title, subtitle, content, facts_json and tags_json, joined by
single spaces (as in `_search_fallback`). -/
def fallbackSearchable (m : MemRow) : String :=
  lowerStr m.title ++ " " ++ lowerStr m.subtitle ++ " " ++ lowerStr m.content ++ " " ++
    lowerStr m.facts_json ++ " " ++ lowerStr m.tags_json

/-- `matches` in `_search_fallback`: the number of query tokens (with
multiplicity) that occur in the searchable concatenation. -/
def fallbackMatchCount (q : String) (m : MemRow) : Nat :=
  ((splitTerms (lowerStr q)).filter (fun t => strIn t (fallbackSearchable m))).length

/-- `score = matches * memory.importance` in `_search_fallback`. -/
def fallbackScore (q : String) (m : MemRow) : Rat :=
  ratMul (fallbackMatchCount q m : Rat) m.importance

/-- `MemoryStore._search_fallback`: pre-filter by type/project ordered by
importance DESC, created_at_epoch DESC; keep rows with at least one
matching token, paired with their score; stable-sort by score descending;
return the first `limit` rows. -/
def search_fallback (q : String) (lim : Nat) (ty proj : Option String)
    (st : StoreState) : List MemRow :=
  let rows := sortLe impEpochLe
    (st.memories.filter (fun m => passesType ty m && passesProj proj m))
  let results := rows.filterMap (fun m =>
    if 0 < fallbackMatchCount q m then some (fallbackScore q m, m) else none)
  ((sortLe scorePairLe results).map (fun x => x.2)).take lim

/-- Outcome of the FTS5 MATCH query in `MemoryStore.search`: either the
relevance-ranked rows, or the sqlite3.OperationalError raised for a
malformed query / missing shadow index. -/
inductive FtsOutcome where
  | ok : List MemRow → FtsOutcome
  | err : FtsOutcome

/-- `MemoryStore.search`: FTS5 result when the engine accepts the query,
otherwise the exception is caught and the fallback result returned. -/
def search (fts : FtsOutcome) (q : String) (lim : Nat) (ty proj : Option String)
    (st : StoreState) : List MemRow :=
  match fts with
  | .ok rows => rows
  | .err => search_fallback q lim ty proj st

/-- SQLite `column LIKE '%pat%'` for a wildcard-free pattern:
ASCII-case-insensitive substring containment. -/
def likeContains (field pat : String) : Bool :=
  strIn (lowerStr pat) (lowerStr field)

/-- The `'"' + arg + '"'` core of the LIKE patterns used by
search_by_file / search_by_concept / list filters. -/
def quoteWrap (s : String) : String := "\"" ++ s ++ "\""

/-- `MemoryStore.search_by_file`: rows whose serialized file lists
contain the quoted path, ORDER BY created_at_epoch DESC LIMIT lim. -/
def search_by_file (path : String) (lim : Nat) (st : StoreState) : List MemRow :=
  (sortLe epochDescLe
    (st.memories.filter (fun m =>
      likeContains m.files_read_json (quoteWrap path) ||
        likeContains m.files_modified_json (quoteWrap path)))).take lim

/-- `MemoryStore.search_by_concept`: rows whose serialized concepts list
contains the quoted tag, ORDER BY importance DESC, created_at_epoch DESC
LIMIT lim. -/
def search_by_concept (concept : String) (lim : Nat) (st : StoreState) : List MemRow :=
  (sortLe impEpochLe
    (st.memories.filter (fun m =>
      likeContains m.concepts_json (quoteWrap concept)))).take lim

/-- Return value of `MemoryStore.get_timeline`. -/
structure Timeline where
  center_epoch : Int
  window_hours : Int
  observations : List MemRow
  summaries : List SumRow
deriving DecidableEq

/-- `MemoryStore.get_timeline`: symmetric inclusive window of
`window_hours` around the center (defaulting to now), full memory and
summary rows, each newest-first and capped at `lim` independently. -/
def get_timeline (center_epoch : Option Int) (window_hours : Int)
    (proj : Option String) (lim : Nat) (nowEpoch : Int) (st : StoreState) :
    Timeline :=
  let center := center_epoch.getD nowEpoch
  let window_ms := window_hours * 3600 * 1000
  let lo := center - window_ms
  let hi := center + window_ms
  { center_epoch := center,
    window_hours := window_hours,
    observations :=
      (sortLe epochDescLe (st.memories.filter (fun m =>
        decide (lo ≤ m.created_at_epoch) && decide (m.created_at_epoch ≤ hi) &&
          passesProj proj m))).take lim,
    summaries :=
      (sortLe epochDescLeS (st.summaries.filter (fun s =>
        decide (lo ≤ s.created_at_epoch) && decide (s.created_at_epoch ≤ hi) &&
          passesProjS proj s))).take lim }



/-- Inserting with `insertLe` permutes to consing. -/
theorem insertLe_perm (le : α → α → Bool) (a : α) (l : List α) :
    List.Perm (insertLe le a l) (a :: l) := by
  induction l with
  | nil => simp [insertLe]
  | cons b bs ih =>
    by_cases h : le a b = true
    · simp [insertLe, h]
    · rw [insertLe, if_neg h]
      exact (List.Perm.cons b ih).trans (List.Perm.swap a b bs)

/-- `sortLe` permutes its input. -/
theorem sortLe_perm (le : α → α → Bool) (l : List α) :
    List.Perm (sortLe le l) l := by
  induction l with
  | nil => simp [sortLe]
  | cons a as ih => exact (insertLe_perm le a (sortLe le as)).trans (ih.cons a)

/-- Membership through `insertLe`. -/
theorem mem_insertLe {le : α → α → Bool} {a x : α} {l : List α} :
    x ∈ insertLe le a l ↔ x = a ∨ x ∈ l := by
  rw [(insertLe_perm le a l).mem_iff]; simp

/-- `insertLe` preserves sortedness for transitive total Boolean orders. -/
theorem insertLe_pairwise {le : α → α → Bool}
    (htrans : ∀ a b c, le a b = true → le b c = true → le a c = true)
    (htot : ∀ a b, le a b = true ∨ le b a = true)
    (a : α) {l : List α} (h : l.Pairwise fun x y => le x y = true) :
    (insertLe le a l).Pairwise fun x y => le x y = true := by
  induction l with
  | nil => simp [insertLe]
  | cons b bs ih =>
    rcases List.pairwise_cons.mp h with ⟨hb, hbs⟩
    by_cases hab : le a b = true
    · rw [insertLe, if_pos hab]
      refine List.pairwise_cons.mpr ⟨?_, h⟩
      intro y hy
      rcases List.mem_cons.mp hy with rfl | hy
      · exact hab
      · exact htrans a b y hab (hb y hy)
    · rw [insertLe, if_neg hab]
      refine List.pairwise_cons.mpr ⟨?_, ih hbs⟩
      intro y hy
      rcases mem_insertLe.mp hy with rfl | hy
      · exact (htot _ _).resolve_left hab
      · exact hb y hy

/-- `sortLe` output is sorted for transitive total Boolean orders. -/
theorem sortLe_pairwise {le : α → α → Bool}
    (htrans : ∀ a b c, le a b = true → le b c = true → le a c = true)
    (htot : ∀ a b, le a b = true ∨ le b a = true)
    (l : List α) :
    (sortLe le l).Pairwise fun x y => le x y = true := by
  induction l with
  | nil => simp [sortLe]
  | cons a as ih => exact insertLe_pairwise htrans htot a ih

/-- The eviction order is transitive. -/
theorem evictLe_trans (a b c : MemRow) (hab : evictLe a b = true)
    (hbc : evictLe b c = true) : evictLe a c = true := by
  simp only [evictLe, Bool.or_eq_true, Bool.and_eq_true, decide_eq_true_eq] at *
  omega

/-- The eviction order is total. -/
theorem evictLe_total (a b : MemRow) : evictLe a b = true ∨ evictLe b a = true := by
  simp only [evictLe, Bool.or_eq_true, Bool.and_eq_true, decide_eq_true_eq]
  omega

/-- The eviction order read as a proposition. -/
theorem evictLe_iff (a b : MemRow) :
    evictLe a b = true ↔
      a.accessed_count < b.accessed_count ∨
        (a.accessed_count = b.accessed_count ∧
          a.created_at_epoch ≤ b.created_at_epoch) := by
  simp [evictLe]

/-- importance DESC, epoch DESC is transitive. -/
theorem impEpochLe_trans (a b c : MemRow) (hab : impEpochLe a b = true)
    (hbc : impEpochLe b c = true) : impEpochLe a c = true := by
  simp only [impEpochLe, Bool.or_eq_true, Bool.and_eq_true, decide_eq_true_eq] at *
  rcases hab with h1 | ⟨h1, h1e⟩ <;> rcases hbc with h2 | ⟨h2, h2e⟩
  · exact Or.inl (h2.trans h1)
  · exact Or.inl (h2 ▸ h1)
  · exact Or.inl (h1 ▸ h2)
  · exact Or.inr ⟨h1.trans h2, h2e.trans h1e⟩

/-- importance DESC, epoch DESC is total. -/
theorem impEpochLe_total (a b : MemRow) :
    impEpochLe a b = true ∨ impEpochLe b a = true := by
  simp only [impEpochLe, Bool.or_eq_true, Bool.and_eq_true, decide_eq_true_eq]
  rcases lt_trichotomy a.importance b.importance with h | h | h
  · exact Or.inr (Or.inl h)
  · rcases Int.le_total a.created_at_epoch b.created_at_epoch with he | he
    · exact Or.inr (Or.inr ⟨h.symm, he⟩)
    · exact Or.inl (Or.inr ⟨h, he⟩)
  · exact Or.inl (Or.inl h)

/-- importance DESC, epoch DESC read as a proposition. -/
theorem impEpochLe_iff (a b : MemRow) :
    impEpochLe a b = true ↔
      b.importance < a.importance ∨
        (a.importance = b.importance ∧ b.created_at_epoch ≤ a.created_at_epoch) := by
  simp [impEpochLe]

/-- epoch DESC on memory rows is transitive. -/
theorem epochDescLe_trans (a b c : MemRow) (hab : epochDescLe a b = true)
    (hbc : epochDescLe b c = true) : epochDescLe a c = true := by
  simp only [epochDescLe, decide_eq_true_eq] at *
  omega

/-- epoch DESC on memory rows is total. -/
theorem epochDescLe_total (a b : MemRow) :
    epochDescLe a b = true ∨ epochDescLe b a = true := by
  simp only [epochDescLe, decide_eq_true_eq]
  omega

/-- epoch DESC on summary rows is transitive. -/
theorem epochDescLeS_trans (a b c : SumRow) (hab : epochDescLeS a b = true)
    (hbc : epochDescLeS b c = true) : epochDescLeS a c = true := by
  simp only [epochDescLeS, decide_eq_true_eq] at *
  omega

/-- epoch DESC on summary rows is total. -/
theorem epochDescLeS_total (a b : SumRow) :
    epochDescLeS a b = true ∨ epochDescLeS b a = true := by
  simp only [epochDescLeS, decide_eq_true_eq]
  omega

/-- score DESC on pairs is transitive. -/
theorem scorePairLe_trans (a b c : Rat × MemRow) (hab : scorePairLe a b = true)
    (hbc : scorePairLe b c = true) : scorePairLe a c = true := by
  simp only [scorePairLe, decide_eq_true_eq] at *
  exact hbc.trans hab

/-- score DESC on pairs is total. -/
theorem scorePairLe_total (a b : Rat × MemRow) :
    scorePairLe a b = true ∨ scorePairLe b a = true := by
  simp only [scorePairLe, decide_eq_true_eq]
  exact le_total b.1 a.1



/-- `ratMul` is multiplication on `Rat`. -/
theorem ratMul_eq_mul (a b : Rat) : ratMul a b = a * b := by
  rw [Rat.mul_def]
  simp [ratMul, Rat.normalize_eq_mkRat]

/-- Store obtained by adding one memory with content "Retrievable memory"
to an empty store (the scenario of test_get_memory in tests/test_store.py). -/
def stC2 : StoreState :=
  (add { content := "Retrievable memory" } "m1" 0 (emptyStore 1000)).2

/-- C2: after `add` and a single `get`, the record *returned* by `get`
still carries `accessed_count = 0`, because the row is fetched before the
`UPDATE ... accessed_count + 1` statement runs; the *stored* row does get
`accessed_count = 1`. The repository's own test
(`test_get_memory`: `retrieved.accessed_count == 1`) and the spec expect
the returned record to show 1, so the code diverges from the claim on
this input. The other parts of the claim hold: the returned record's
importance is in [0, 1] and its type/category are members of the closed
sets. -/
theorem get_returns_stale_accessed_count :
    ((get "m1" stC2).1.map (fun m => m.accessed_count)) = some 0 ∧
    (((get "m1" stC2).2.memories.find? (fun m => decide (m.id = "m1"))).map
      (fun m => m.accessed_count)) = some 1 ∧
    ((get "m1" stC2).1.map (fun m =>
      decide (0 ≤ m.importance) && decide (m.importance ≤ 1) &&
        decide (m.type ∈ OBSERVATION_TYPES) &&
        decide (m.category ∈ MEMORY_CATEGORIES))) = some true := by
  decide

/-- C4: `add` stores the importance clamped into [0, 1], the type coerced
to "change" when outside the closed observation-type set, and the
category coerced to "general" when outside the closed category set; in
particular importance 2.0 stores as 1.0, importance -1.0 as 0.0, and an
unknown category as "general". -/
theorem add_normalizes_fields :
    (∀ (args : AddArgs) (newId : String) (nowEpoch : Int) (st : StoreState),
      (add args newId nowEpoch st).1.importance = max 0 (min 1 args.importance) ∧
      0 ≤ (add args newId nowEpoch st).1.importance ∧
      (add args newId nowEpoch st).1.importance ≤ 1 ∧
      (add args newId nowEpoch st).1.type
        = (if args.type ∈ OBSERVATION_TYPES then args.type else "change") ∧
      (add args newId nowEpoch st).1.type ∈ OBSERVATION_TYPES ∧
      (add args newId nowEpoch st).1.category
        = (if args.category ∈ MEMORY_CATEGORIES then args.category else "general") ∧
      (add args newId nowEpoch st).1.category ∈ MEMORY_CATEGORIES) ∧
    (add { content := "High", importance := 2 } "a" 0 (emptyStore 1000)).1.importance = 1 ∧
    (add { content := "Low", importance := -1 } "b" 0 (emptyStore 1000)).1.importance = 0 ∧
    (add { content := "Test", category := "not-a-real-category" } "c" 0
      (emptyStore 1000)).1.category = "general" := by
  refine ⟨?_, by decide, by decide, by decide⟩
  intro args newId nowEpoch st
  refine ⟨rfl, le_max_left 0 _, max_le (by norm_num) (min_le_left 1 _), rfl, ?_, rfl, ?_⟩
  · by_cases h : args.type ∈ OBSERVATION_TYPES
    · simp [add, h]
    · simp [add, h]
      decide
  · by_cases h : args.category ∈ MEMORY_CATEGORIES
    · simp [add, h]
    · simp [add, h]
      decide



/-- `find?` by id commutes with an id-preserving map. -/
theorem find?_id_map (l : List MemRow) (g : MemRow → MemRow)
    (hg : ∀ m, (g m).id = m.id) (x : String) :
    (l.map g).find? (fun m => decide (m.id = x))
      = (l.find? (fun m => decide (m.id = x))).map g := by
  induction l with
  | nil => rfl
  | cons m ms ih =>
    by_cases h : m.id = x
    · simp [List.find?_cons, hg, h]
    · simp [List.find?_cons, hg, h, ih]

/-- The row-incrementing function used by `get` preserves ids. -/
theorem get_bump_id (id : String) (m : MemRow) :
    ((fun m : MemRow =>
      if m.id = id then { m with accessed_count := m.accessed_count + 1 } else m) m).id
      = m.id := by
  by_cases h : m.id = id <;> simp [h]

/-- The row-updating function used by `update` preserves ids. -/
theorem update_row_id (id : String) (a : UpdateArgs) (m : MemRow) :
    ((fun m : MemRow => if m.id = id then applyUpdate a m else m) m).id = m.id := by
  by_cases h : m.id = id <;> simp [h, applyUpdate]

/-- The first component of `get` is `none` exactly when no row has the id. -/
theorem get_fst_eq_none (id : String) (st : StoreState) :
    (get id st).1 = none ↔ ∀ m ∈ st.memories, m.id ≠ id := by
  cases hf : st.memories.find? (fun m => decide (m.id = id)) with
  | none =>
    simp only [get, hf]
    simp only [List.find?_eq_none, decide_eq_true_eq] at hf
    simpa using hf
  | some row =>
    simp only [get, hf]
    constructor
    · intro h
      cases h
    · intro h
      have hrow : row.id = id := by simpa using List.find?_some hf
      exact absurd hrow (h row (List.mem_of_find?_eq_some hf))

/-- C7: `delete` returns true exactly when a row with the id existed (and
false on a repeat call for the same id), and reads (`get`, `update`)
addressed to a nonexistent id return an absent result rather than an
error. -/
theorem delete_and_missing_id_semantics (st : StoreState) (id : String) (a : UpdateArgs) :
    ((delete id st).1 = true ↔ ∃ m ∈ st.memories, m.id = id) ∧
    (delete id (delete id st).2).1 = false ∧
    ((get id st).1 = none ↔ ∀ m ∈ st.memories, m.id ≠ id) ∧
    ((update id a st).1 = none ↔ ∀ m ∈ st.memories, m.id ≠ id) := by
  refine ⟨?_, ?_, get_fst_eq_none id st, ?_⟩
  · simp [delete, List.any_eq_true]
  · simp [delete, List.any_eq_true, List.mem_filter]
  · cases hf : st.memories.find? (fun m => decide (m.id = id)) with
    | none =>
      have hu : update id a st = (none, st) := by
        simp [update, get, hf]
      rw [hu]
      simp only [List.find?_eq_none, decide_eq_true_eq] at hf
      simpa using hf
    | some row =>
      have hrow : row.id = id := by simpa using List.find?_some hf
      have hmem : row ∈ st.memories := List.mem_of_find?_eq_some hf
      have hne : ¬ (∀ m ∈ st.memories, m.id ≠ id) := fun h => absurd hrow (h row hmem)
      simp only [update, get, hf]
      by_cases ha : updateApplies a = true
      · simp only [ha, if_true]
        rw [find?_id_map _ _ (update_row_id id a) id,
          find?_id_map _ _ (get_bump_id id) id, hf]
        simp [hne]
      · simp [ha, hne]
  


/-- With pairwise-distinct ids, `find?` by a member's id returns exactly
that member. -/
theorem find?_eq_of_nodup (l : List MemRow) (old : MemRow)
    (hn : (l.map (fun m => m.id)).Nodup) (hmem : old ∈ l) :
    l.find? (fun m => decide (m.id = old.id)) = some old := by
  induction l with
  | nil => cases hmem
  | cons m ms ih =>
    rcases List.mem_cons.mp hmem with rfl | hmem2
    · simp [List.find?_cons]
    · have hn2 : (ms.map (fun m => m.id)).Nodup := (List.nodup_cons.mp hn).2
      have hm : m.id ∉ ms.map (fun m => m.id) := (List.nodup_cons.mp hn).1
      have hne : m.id ≠ old.id := fun he =>
        hm (he ▸ List.mem_map_of_mem (fun m => m.id) hmem2)
      simp [List.find?_cons, hne, ih hn2 hmem2]

/-- C5: `update` applies exactly the textually present fields (enum
fields only when they validate, silently dropping invalid values while
the rest of the call still applies), re-clamps importance, returns the
post-update record, returns the pre-call record untouched when no field
applies, and returns an absent result for a nonexistent id. -/
theorem update_present_fields (st : StoreState) (a : UpdateArgs) (old : MemRow)
    (hn : (st.memories.map (fun m => m.id)).Nodup) (hmem : old ∈ st.memories) :
    (updateApplies a = true →
      ∃ r, (update old.id a st).1 = some r ∧
        r.content = a.content.getD old.content ∧
        r.type = (match a.type with
          | some t => if t ∈ OBSERVATION_TYPES then t else old.type
          | none => old.type) ∧
        r.title = a.title.getD old.title ∧
        r.subtitle = a.subtitle.getD old.subtitle ∧
        r.facts_json = (a.facts.map jsonDumps).getD old.facts_json ∧
        r.concepts_json = (a.concepts.map jsonDumps).getD old.concepts_json ∧
        r.category = (match a.category with
          | some c => if c ∈ MEMORY_CATEGORIES then c else old.category
          | none => old.category) ∧
        r.importance = (match a.importance with
          | some i => max 0 (min 1 i)
          | none => old.importance) ∧
        r.tags_json = (a.tags.map jsonDumps).getD old.tags_json ∧
        r.id = old.id ∧
        r.created_at_epoch = old.created_at_epoch ∧
        r.session_id = old.session_id ∧
        r.project = old.project ∧
        r.files_read_json = old.files_read_json ∧
        r.files_modified_json = old.files_modified_json ∧
        r.metadata_json = old.metadata_json ∧
        r.discovery_tokens = old.discovery_tokens) ∧
    (updateApplies a = false → (update old.id a st).1 = some old) ∧
    (∀ id2, (∀ m ∈ st.memories, m.id ≠ id2) → update id2 a st = (none, st)) := by
  have hf : st.memories.find? (fun m => decide (m.id = old.id)) = some old :=
    find?_eq_of_nodup st.memories old hn hmem
  refine ⟨?_, ?_, ?_⟩
  · intro ha
    refine ⟨applyUpdate a { old with accessed_count := old.accessed_count + 1 },
      ?_, rfl, rfl, rfl, rfl, rfl, rfl, rfl, rfl, rfl, rfl, rfl, rfl, rfl, rfl,
      rfl, rfl, rfl⟩
    simp only [update, get, hf, ha, if_true]
    rw [find?_id_map _ _ (update_row_id old.id a) old.id,
      find?_id_map _ _ (get_bump_id old.id) old.id, hf]
    simp
  · intro ha
    simp [update, get, hf, ha]
  · intro id2 hno
    have hf2 : st.memories.find? (fun m => decide (m.id = id2)) = none :=
      List.find?_eq_none.mpr (fun m hm => by simpa using hno m hm)
    simp [update, get, hf2]

/-- Concrete store and row used to witness the update theorems: one
memory added to an empty store. -/
def stC5 : StoreState :=
  (add { content := "Original content" } "u1" 0 (emptyStore 1000)).2

/-- The row stored in `stC5`. -/
def rowC5 : MemRow := (add { content := "Original content" } "u1" 0 (emptyStore 1000)).1

/-- Witness for C5 at a concrete input: hypotheses hold for `stC5` and a
no-op update call returns the pre-call record. -/
theorem update_present_fields_witness :
    (stC5.memories.map (fun m => m.id)).Nodup ∧ rowC5 ∈ stC5.memories ∧
    (update rowC5.id { } stC5).1 = some rowC5 :=
  ⟨by decide, by decide,
    (update_present_fields stC5 { } rowC5 (by decide) (by decide)).2.1 (by decide)⟩

/-- C9: every `update` on an existing id bumps the stored
`accessed_count` — by 1 when no field applies (the internal read-by-id),
and by 2 when the UPDATE runs (read-by-id before and after), so reads
internal to `update` also increment the counter, not only explicit `get`
calls. -/
theorem update_increments_accessed_count (st : StoreState) (a : UpdateArgs) (old : MemRow)
    (hn : (st.memories.map (fun m => m.id)).Nodup) (hmem : old ∈ st.memories) :
    (((update old.id a st).2.memories.find? (fun m => decide (m.id = old.id))).map
      (fun m => m.accessed_count))
      = some (old.accessed_count + (if updateApplies a then 2 else 1)) := by
  have hf : st.memories.find? (fun m => decide (m.id = old.id)) = some old :=
    find?_eq_of_nodup st.memories old hn hmem
  by_cases ha : updateApplies a = true
  · simp only [update, get, hf, ha, if_true]
    rw [find?_id_map _ _ (update_row_id old.id a) old.id,
      find?_id_map _ _ (get_bump_id old.id) old.id, hf]
    simp only [Option.map_some']
    rw [find?_id_map _ _ (get_bump_id old.id) old.id,
      find?_id_map _ _ (update_row_id old.id a) old.id,
      find?_id_map _ _ (get_bump_id old.id) old.id, hf]
    simp [applyUpdate]
  · simp only [update, get, hf, ha, if_false, Bool.false_eq_true]
    rw [find?_id_map _ _ (get_bump_id old.id) old.id, hf]
    simp [ha]

/-- Witness for C9 at a concrete input: an applying update bumps the
stored count by 2. -/
theorem update_increments_accessed_count_witness :
    (stC5.memories.map (fun m => m.id)).Nodup ∧ rowC5 ∈ stC5.memories ∧
    (((update rowC5.id { content := some "Updated content" } stC5).2.memories.find?
      (fun m => decide (m.id = rowC5.id))).map (fun m => m.accessed_count)) = some 2 := by
  refine ⟨by decide, by decide, ?_⟩
  have h := update_increments_accessed_count stC5 { content := some "Updated content" }
    rowC5 (by decide) (by decide)
  simpa using h



/-- Projecting the kept rows out of the score-pairing `filterMap` yields
the filtered candidate list. -/
theorem map_snd_filterMap_score (f : MemRow → Rat) (P : MemRow → Prop)
    [DecidablePred P] (l : List MemRow) :
    (l.filterMap (fun m => if P m then some (f m, m) else none)).map (fun x => x.2)
      = l.filter (fun m => decide (P m)) := by
  induction l with
  | nil => rfl
  | cons m ms ih =>
    by_cases h : P m
    · simp [List.filterMap_cons, h, List.filter_cons, ih]
    · simp [List.filterMap_cons, h, List.filter_cons, ih]

/-- Every pair produced by the score-pairing `filterMap` carries the
score of its row. -/
theorem fst_eq_of_mem_filterMap_score (f : MemRow → Rat) (P : MemRow → Prop)
    [DecidablePred P] (l : List MemRow) (x : Rat × MemRow)
    (hx : x ∈ l.filterMap (fun m => if P m then some (f m, m) else none)) :
    x.1 = f x.2 := by
  rcases List.mem_filterMap.mp hx with ⟨m, _, hm⟩
  by_cases h : P m
  · rw [if_pos h] at hm
    cases hm
    rfl
  · rw [if_neg h] at hm
    cases hm

/-- C3 (amended): when the full-text engine rejects the query, `search`
returns exactly the fallback result, and the fallback result is the
first `limit` elements of a score-descending ordering of precisely those
candidate rows (after the type/project pre-filter) in which at least one
whitespace-separated query token occurs case-insensitively in the
concatenation of title, subtitle, content, serialized facts and
serialized tags; the score of a row is its token match count (tokens
counted with multiplicity) times its importance. -/
theorem search_fallback_characterization (q : String) (lim : Nat) (ty proj : Option String)
    (st : StoreState) :
    search FtsOutcome.err q lim ty proj st = search_fallback q lim ty proj st ∧
    ∃ full : List MemRow,
      List.Perm full (st.memories.filter (fun m =>
        (passesType ty m && passesProj proj m) && decide (0 < fallbackMatchCount q m))) ∧
      full.Pairwise (fun a b => fallbackScore q b ≤ fallbackScore q a) ∧
      search_fallback q lim ty proj st = full.take lim := by
  refine ⟨rfl, ?_⟩
  refine ⟨(sortLe scorePairLe
      ((sortLe impEpochLe (st.memories.filter (fun m => passesType ty m && passesProj proj m))).filterMap
        (fun m => if 0 < fallbackMatchCount q m then some (fallbackScore q m, m) else none))).map
      (fun x => x.2), ?_, ?_, ?_⟩
  · have h1 : List.Perm
        ((sortLe scorePairLe
          ((sortLe impEpochLe (st.memories.filter (fun m => passesType ty m && passesProj proj m))).filterMap
            (fun m => if 0 < fallbackMatchCount q m then some (fallbackScore q m, m) else none))).map
          (fun x => x.2))
        (((sortLe impEpochLe (st.memories.filter (fun m => passesType ty m && passesProj proj m))).filterMap
            (fun m => if 0 < fallbackMatchCount q m then some (fallbackScore q m, m) else none)).map
          (fun x => x.2)) :=
      (sortLe_perm scorePairLe _).map _
    rw [map_snd_filterMap_score (fallbackScore q) (fun m => 0 < fallbackMatchCount q m)] at h1
    refine h1.trans ?_
    have h2 : List.Perm
        ((sortLe impEpochLe (st.memories.filter (fun m => passesType ty m && passesProj proj m))).filter
          (fun m => decide (0 < fallbackMatchCount q m)))
        ((st.memories.filter (fun m => passesType ty m && passesProj proj m)).filter
          (fun m => decide (0 < fallbackMatchCount q m))) :=
      (sortLe_perm impEpochLe _).filter _
    refine h2.trans ?_
    have he : (fun a => decide (0 < fallbackMatchCount q a) &&
          (passesType ty a && passesProj proj a))
        = (fun a => (passesType ty a && passesProj proj a) &&
          decide (0 < fallbackMatchCount q a)) := by
      funext a
      cases hA : passesType ty a <;> cases hB : passesProj proj a <;>
        cases hC : decide (0 < fallbackMatchCount q a) <;> rfl
    rw [List.filter_filter, he]
  · rw [List.pairwise_map]
    have hpw := sortLe_pairwise scorePairLe_trans scorePairLe_total
      ((sortLe impEpochLe (st.memories.filter (fun m => passesType ty m && passesProj proj m))).filterMap
        (fun m => if 0 < fallbackMatchCount q m then some (fallbackScore q m, m) else none))
    refine hpw.imp_of_mem ?_
    intro x y hx hy h
    have hx1 : x.1 = fallbackScore q x.2 :=
      fst_eq_of_mem_filterMap_score (fallbackScore q) (fun m => 0 < fallbackMatchCount q m) _ x
        ((sortLe_perm scorePairLe _).mem_iff.mp hx)
    have hy1 : y.1 = fallbackScore q y.2 :=
      fst_eq_of_mem_filterMap_score (fallbackScore q) (fun m => 0 < fallbackMatchCount q m) _ y
        ((sortLe_perm scorePairLe _).mem_iff.mp hy)
    have h2 : y.1 ≤ x.1 := by simpa [scorePairLe] using h
    rw [hx1, hy1] at h2
    exact h2
  · rfl



/-- The searchable-field concatenation as the claim words it: title,
subtitle, content, facts and concepts (the code scans tags instead of
concepts). -/
def fallbackClaimedSearchable (m : MemRow) : String :=
  lowerStr m.title ++ " " ++ lowerStr m.subtitle ++ " " ++ lowerStr m.content ++ " " ++
    lowerStr m.facts_json ++ " " ++ lowerStr m.concepts_json

/-- The fallback scorer exactly as the claim describes it: distinct
query terms, searchable fields including concepts, zero-score candidates
discarded, sort by score descending, truncate to limit. Written for
comparison with `search_fallback`; it is not the code's behaviour. -/
def fallbackClaimed (q : String) (lim : Nat) (ty proj : Option String)
    (st : StoreState) : List MemRow :=
  let terms := (splitTerms (lowerStr q)).dedup
  let scored := (st.memories.filter (fun m => passesType ty m && passesProj proj m)).filterMap
    (fun m =>
      let sc : Rat := ratMul (((terms.filter
        (fun t => strIn t (fallbackClaimedSearchable m))).length : Nat) : Rat) m.importance
      if 0 < sc then some (sc, m) else none)
  ((sortLe scorePairLe scored).map (fun x => x.2)).take lim

/-- Store holding one memory whose concepts list contains "gotcha" while
no other searchable field does. -/
def stC3 : StoreState :=
  (add { content := "hello", concepts := ["gotcha"] } "g1" 0 (emptyStore 1000)).2

/-- C3 counterexample: with the engine rejecting the query, the code's
fallback scans tags_json rather than concepts_json, so it misses a
memory whose concepts contain the sole query term; the scorer described
by the claim returns that memory. -/
theorem search_fallback_concepts_counterexample :
    search FtsOutcome.err "gotcha" 10 none none stC3 = [] ∧
    fallbackClaimed "gotcha" 10 none none stC3
      = [(add { content := "hello", concepts := ["gotcha"] } "g1" 0 (emptyStore 1000)).1] := by
  decide

/-- C6 (amended): `search_by_file` and `search_by_concept` are
membership scans of the serialized list fields for the quoted argument;
`search_by_concept` orders by importance descending then creation epoch
descending, while `search_by_file` orders by creation epoch descending
only; both truncate to the limit. -/
theorem search_scans_order (path concept : String) (lim : Nat) (st : StoreState) :
    (∃ full : List MemRow,
      List.Perm full (st.memories.filter (fun m =>
        likeContains m.files_read_json (quoteWrap path) ||
          likeContains m.files_modified_json (quoteWrap path))) ∧
      full.Pairwise (fun a b => b.created_at_epoch ≤ a.created_at_epoch) ∧
      search_by_file path lim st = full.take lim) ∧
    (∃ full : List MemRow,
      List.Perm full (st.memories.filter (fun m =>
        likeContains m.concepts_json (quoteWrap concept))) ∧
      full.Pairwise (fun a b =>
        b.importance < a.importance ∨
          (a.importance = b.importance ∧ b.created_at_epoch ≤ a.created_at_epoch)) ∧
      search_by_concept concept lim st = full.take lim) := by
  constructor
  · refine ⟨sortLe epochDescLe (st.memories.filter (fun m =>
      likeContains m.files_read_json (quoteWrap path) ||
        likeContains m.files_modified_json (quoteWrap path))), sortLe_perm _ _, ?_, rfl⟩
    have hpw := sortLe_pairwise epochDescLe_trans epochDescLe_total
      (st.memories.filter (fun m =>
        likeContains m.files_read_json (quoteWrap path) ||
          likeContains m.files_modified_json (quoteWrap path)))
    refine hpw.imp ?_
    intro a b h
    simpa [epochDescLe] using h
  · refine ⟨sortLe impEpochLe (st.memories.filter (fun m =>
      likeContains m.concepts_json (quoteWrap concept))), sortLe_perm _ _, ?_, rfl⟩
    have hpw := sortLe_pairwise impEpochLe_trans impEpochLe_total
      (st.memories.filter (fun m => likeContains m.concepts_json (quoteWrap concept)))
    refine hpw.imp ?_
    intro a b h
    exact (impEpochLe_iff a b).mp h

/-- Rows for the C6 counterexample: an older, maximally important memory
and a newer, unimportant one, both mentioning the same file. -/
def rowC6old : MemRow :=
  { id := "f1", type := "change", title := "one", subtitle := "", content := "one",
    facts_json := "[]", concepts_json := "[]", files_read_json := "[\"a.py\"]",
    files_modified_json := "[]", session_id := none, project := none,
    category := "general", importance := 1, tags_json := "[]",
    metadata_json := "\x7b\x7d", created_at_epoch := 0, accessed_count := 0,
    discovery_tokens := 0 }

/-- The newer low-importance row of the C6 counterexample. -/
def rowC6new : MemRow :=
  { rowC6old with id := "f2", importance := 0, created_at_epoch := 1 }

/-- Store holding the two C6 counterexample rows. -/
def stC6 : StoreState :=
  { memories := [rowC6old, rowC6new], summaries := [], maxMemories := 1000 }

/-- C6 counterexample: `search_by_file` returns the newer row first even
though its importance is strictly lower, so the result is not ordered by
importance descending as the claim states. -/
theorem search_by_file_order_counterexample :
    search_by_file "a.py" 10 stC6 = [rowC6new, rowC6old] ∧
    rowC6new.importance < rowC6old.importance ∧
    rowC6old.created_at_epoch < rowC6new.created_at_epoch := by
  decide




/-- Within the limit, `_enforce_limit` does nothing. -/
theorem enforce_limit_of_le (st : StoreState)
    (h : st.memories.length ≤ st.maxMemories) : enforce_limit st = st := by
  simp [enforce_limit, h]

/-- Filtering a list with pairwise-distinct ids by "id not among the
ids of the prefix" removes exactly the prefix. -/
theorem filter_by_id_split (v d : List MemRow)
    (hnd : ((v ++ d).map (fun m => m.id)).Nodup) :
    (v ++ d).filter (fun m => decide (m.id ∉ (v.map (fun m => m.id)))) = d := by
  rw [List.map_append] at hnd
  have hdisj := (List.nodup_append.mp hnd).2.2
  rw [List.filter_append]
  have h1 : v.filter (fun m => decide (m.id ∉ (v.map (fun m => m.id)))) = [] := by
    apply List.filter_eq_nil_iff.mpr
    intro a ha
    have hmem : a.id ∈ v.map (fun m => m.id) := List.mem_map_of_mem _ ha
    simp [hmem]
  have h2 : d.filter (fun m => decide (m.id ∉ (v.map (fun m => m.id)))) = d := by
    apply List.filter_eq_self.mpr
    intro a ha
    have hnot : a.id ∉ v.map (fun m => m.id) := fun hmem =>
      hdisj hmem (List.mem_map_of_mem (fun m => m.id) ha)
    simpa using hnot
  rw [h1, h2, List.nil_append]

/-- Over the limit, `_enforce_limit` keeps (a permutation of) the sorted
suffix past the first `count - max` rows of the eviction ordering. -/
theorem enforce_limit_perm_drop (st : StoreState)
    (hn : (st.memories.map (fun m => m.id)).Nodup)
    (hgt : st.maxMemories < st.memories.length) :
    List.Perm (enforce_limit st).memories
      ((sortLe evictLe st.memories).drop (st.memories.length - st.maxMemories)) := by
  have hnle : ¬ st.memories.length ≤ st.maxMemories := Nat.not_le.mpr hgt
  have hres : (enforce_limit st).memories
      = st.memories.filter (fun m => decide (m.id ∉
        (((sortLe evictLe st.memories).take
          (st.memories.length - st.maxMemories)).map (fun m => m.id)))) := by
    simp [enforce_limit, hnle]
  have hperm : List.Perm (sortLe evictLe st.memories) st.memories :=
    sortLe_perm evictLe st.memories
  have hnds : ((sortLe evictLe st.memories).map (fun m => m.id)).Nodup :=
    ((hperm.map (fun m => m.id)).nodup_iff).mpr hn
  have key := filter_by_id_split
    ((sortLe evictLe st.memories).take (st.memories.length - st.maxMemories))
    ((sortLe evictLe st.memories).drop (st.memories.length - st.maxMemories))
    (by rw [List.take_append_drop]; exact hnds)
  have hcong : (sortLe evictLe st.memories).filter (fun m => decide (m.id ∉
        (((sortLe evictLe st.memories).take
          (st.memories.length - st.maxMemories)).map (fun m => m.id))))
      = (((sortLe evictLe st.memories).take (st.memories.length - st.maxMemories)) ++
          ((sortLe evictLe st.memories).drop
            (st.memories.length - st.maxMemories))).filter (fun m => decide (m.id ∉
        (((sortLe evictLe st.memories).take
          (st.memories.length - st.maxMemories)).map (fun m => m.id)))) :=
    congrArg _ (List.take_append_drop _ _).symm
  rw [hres]
  refine (hperm.symm.filter _).trans ?_
  rw [hcong, key]




/-- Store with four memories created at epochs -3600000, 0, 3600000 and
3600001 ms (one hour before, at, one hour after, and one hour plus one
millisecond after the window center used in the boundary example). -/
def stC8 : StoreState :=
  (add { content := "d" } "m4" 3600001
    ((add { content := "c" } "m3" 3600000
      ((add { content := "b" } "m2" 0
        ((add { content := "a" } "m1" (-3600000) (emptyStore 1000)).2)).2)).2)).2

/-- C8: `get_timeline` defaults its center to the current time, reports
the given center, and returns exactly the memory rows and summary rows
whose creation epoch lies in the inclusive symmetric window of
window_hours around the center (and pass the project filter), each list
ordered newest-first and independently truncated to the limit; with a
one-hour window, rows at exactly one hour before and after the center
are included and a row one millisecond past the upper bound is not. -/
theorem get_timeline_window :
    (∀ (w : Int) (proj : Option String) (lim : Nat) (nowEpoch : Int) (st : StoreState),
      get_timeline none w proj lim nowEpoch st
        = get_timeline (some nowEpoch) w proj lim nowEpoch st) ∧
    (∀ (c w : Int) (proj : Option String) (lim : Nat) (nowEpoch : Int) (st : StoreState),
      (get_timeline (some c) w proj lim nowEpoch st).center_epoch = c ∧
      (∃ full : List MemRow,
        List.Perm full (st.memories.filter (fun m =>
          decide (c - w * 3600 * 1000 ≤ m.created_at_epoch) &&
            decide (m.created_at_epoch ≤ c + w * 3600 * 1000) && passesProj proj m)) ∧
        full.Pairwise (fun a b => b.created_at_epoch ≤ a.created_at_epoch) ∧
        (get_timeline (some c) w proj lim nowEpoch st).observations = full.take lim) ∧
      (∃ full : List SumRow,
        List.Perm full (st.summaries.filter (fun s =>
          decide (c - w * 3600 * 1000 ≤ s.created_at_epoch) &&
            decide (s.created_at_epoch ≤ c + w * 3600 * 1000) && passesProjS proj s)) ∧
        full.Pairwise (fun a b => b.created_at_epoch ≤ a.created_at_epoch) ∧
        (get_timeline (some c) w proj lim nowEpoch st).summaries = full.take lim)) ∧
    ((get_timeline (some 0) 1 none 50 0 stC8).observations.map (fun m => m.id)
      = ["m3", "m2", "m1"]) := by
  refine ⟨fun w proj lim nowEpoch st => rfl, ?_, by decide⟩
  intro c w proj lim nowEpoch st
  refine ⟨rfl, ?_, ?_⟩
  · refine ⟨sortLe epochDescLe (st.memories.filter (fun m =>
      decide (c - w * 3600 * 1000 ≤ m.created_at_epoch) &&
        decide (m.created_at_epoch ≤ c + w * 3600 * 1000) && passesProj proj m)),
      sortLe_perm _ _, ?_, rfl⟩
    have hpw := sortLe_pairwise epochDescLe_trans epochDescLe_total
      (st.memories.filter (fun m =>
        decide (c - w * 3600 * 1000 ≤ m.created_at_epoch) &&
          decide (m.created_at_epoch ≤ c + w * 3600 * 1000) && passesProj proj m))
    refine hpw.imp ?_
    intro a b h
    simpa [epochDescLe] using h
  · refine ⟨sortLe epochDescLeS (st.summaries.filter (fun s =>
      decide (c - w * 3600 * 1000 ≤ s.created_at_epoch) &&
        decide (s.created_at_epoch ≤ c + w * 3600 * 1000) && passesProjS proj s)),
      sortLe_perm _ _, ?_, rfl⟩
    have hpw := sortLe_pairwise epochDescLeS_trans epochDescLeS_total
      (st.summaries.filter (fun s =>
        decide (c - w * 3600 * 1000 ≤ s.created_at_epoch) &&
          decide (s.created_at_epoch ≤ c + w * 3600 * 1000) && passesProjS proj s))
    refine hpw.imp ?_
    intro a b h
    simpa [epochDescLeS] using h

/-- Filtering a permutation of `v ++ d` by a predicate that holds on all
of `v` and fails on all of `d` leaves a permutation of `v`. -/
theorem filter_perm_front (q : MemRow → Bool) (l v d : List MemRow)
    (hperm2 : List.Perm l (v ++ d))
    (hv : ∀ m ∈ v, q m = true)
    (hd : ∀ m ∈ d, q m = false) :
    List.Perm (l.filter q) v := by
  refine (hperm2.filter q).trans ?_
  rw [List.filter_append, List.filter_eq_self.mpr hv,
    List.filter_eq_nil_iff.mpr (fun a ha => by simp [hd a ha]), List.append_nil]

/-- Over the limit, the resulting memory count is exactly the maximum. -/
theorem enforce_limit_length (s2 : StoreState)
    (hn2 : (s2.memories.map (fun m => m.id)).Nodup)
    (hgt : s2.maxMemories < s2.memories.length) :
    (enforce_limit s2).memories.length = s2.maxMemories := by
  have h1 := (enforce_limit_perm_drop s2 hn2 hgt).length_eq
  rw [List.length_drop, (sortLe_perm evictLe s2.memories).length_eq] at h1
  omega

/-- Over the limit, the rows of the original list that are dropped by
`_enforce_limit` are (a permutation of) the first `count - max` rows of
the eviction ordering. -/
theorem removed_perm_take (s2 : StoreState)
    (hn2 : (s2.memories.map (fun m => m.id)).Nodup)
    (hgt : s2.maxMemories < s2.memories.length) :
    List.Perm
      (s2.memories.filter (fun m => decide (m ∉ (enforce_limit s2).memories)))
      ((sortLe evictLe s2.memories).take (s2.memories.length - s2.maxMemories)) := by
  have hperm : List.Perm (sortLe evictLe s2.memories) s2.memories :=
    sortLe_perm evictLe s2.memories
  have hnds : ((sortLe evictLe s2.memories).map (fun m => m.id)).Nodup :=
    ((hperm.map (fun m => m.id)).nodup_iff).mpr hn2
  have hndsplit : ((((sortLe evictLe s2.memories).take
        (s2.memories.length - s2.maxMemories)).map (fun m => m.id)) ++
      (((sortLe evictLe s2.memories).drop
        (s2.memories.length - s2.maxMemories)).map (fun m => m.id))).Nodup := by
    rw [← List.map_append, List.take_append_drop]
    exact hnds
  have hdisj := (List.nodup_append.mp hndsplit).2.2
  have hresperm := enforce_limit_perm_drop s2 hn2 hgt
  refine filter_perm_front (fun m => decide (m ∉ (enforce_limit s2).memories))
    s2.memories
    ((sortLe evictLe s2.memories).take (s2.memories.length - s2.maxMemories))
    ((sortLe evictLe s2.memories).drop (s2.memories.length - s2.maxMemories))
    ?_ ?_ ?_
  · rw [List.take_append_drop]
    exact hperm.symm
  · intro m hm
    have : m ∉ (enforce_limit s2).memories := by
      intro hmem
      have hmd : m ∈ (sortLe evictLe s2.memories).drop
          (s2.memories.length - s2.maxMemories) := hresperm.mem_iff.mp hmem
      exact hdisj (List.mem_map_of_mem (fun m => m.id) hm)
        (List.mem_map_of_mem (fun m => m.id) hmd)
    simpa using this
  · intro m hm
    have : m ∈ (enforce_limit s2).memories := hresperm.mem_iff.mpr hm
    simpa using this

/-- Over the limit, every row removed by `_enforce_limit` precedes every
kept row in the eviction ordering. -/
theorem removed_le_kept (s2 : StoreState)
    (hn2 : (s2.memories.map (fun m => m.id)).Nodup)
    (hgt : s2.maxMemories < s2.memories.length) :
    ∀ r ∈ s2.memories, r ∉ (enforce_limit s2).memories →
      ∀ m ∈ (enforce_limit s2).memories, evictLe r m = true := by
  intro r hr hrnot m hm
  have hperm : List.Perm (sortLe evictLe s2.memories) s2.memories :=
    sortLe_perm evictLe s2.memories
  have hresperm := enforce_limit_perm_drop s2 hn2 hgt
  have hmd : m ∈ (sortLe evictLe s2.memories).drop
      (s2.memories.length - s2.maxMemories) := hresperm.mem_iff.mp hm
  have hrv : r ∈ (sortLe evictLe s2.memories).take
      (s2.memories.length - s2.maxMemories) := by
    have hrs : r ∈ (sortLe evictLe s2.memories) := hperm.mem_iff.mpr hr
    rw [← List.take_append_drop (s2.memories.length - s2.maxMemories)
      (sortLe evictLe s2.memories)] at hrs
    rcases List.mem_append.mp hrs with h | h
    · exact h
    · exact absurd (hresperm.mem_iff.mpr h) hrnot
  have hpw := sortLe_pairwise evictLe_trans evictLe_total s2.memories
  rw [← List.take_append_drop (s2.memories.length - s2.maxMemories)
    (sortLe evictLe s2.memories)] at hpw
  exact (List.pairwise_append.mp hpw).2.2 r hrv m hmd

/-- C1: after every `add` the store holds at most `max_memories` rows;
when the post-insert count is within the maximum nothing is removed, and
when it exceeds the maximum by k, exactly k rows are removed and every
removed row precedes every kept row under ascending accessed_count with
ties broken by ascending creation epoch. -/
theorem add_evicts_k_least (args : AddArgs) (newId : String) (nowEpoch : Int)
    (st : StoreState)
    (hn : (st.memories.map (fun m => m.id)).Nodup)
    (hfresh : ∀ m ∈ st.memories, m.id ≠ newId) :
    (add args newId nowEpoch st).2.memories.length ≤ st.maxMemories ∧
    (st.memories.length + 1 ≤ st.maxMemories →
      (add args newId nowEpoch st).2.memories
        = st.memories ++ [(add args newId nowEpoch st).1]) ∧
    (st.maxMemories < st.memories.length + 1 →
      (add args newId nowEpoch st).2.memories.length = st.maxMemories ∧
      ((st.memories ++ [(add args newId nowEpoch st).1]).filter
        (fun m => decide (m ∉ (add args newId nowEpoch st).2.memories))).length
        = st.memories.length + 1 - st.maxMemories ∧
      ∀ r ∈ st.memories ++ [(add args newId nowEpoch st).1],
        r ∉ (add args newId nowEpoch st).2.memories →
        ∀ m ∈ (add args newId nowEpoch st).2.memories,
          r.accessed_count < m.accessed_count ∨
            (r.accessed_count = m.accessed_count ∧
              r.created_at_epoch ≤ m.created_at_epoch)) := by
  have hA : (add args newId nowEpoch st).2
      = enforce_limit
        { st with memories := st.memories ++ [(add args newId nowEpoch st).1] } := rfl
  set s2 : StoreState :=
    { st with memories := st.memories ++ [(add args newId nowEpoch st).1] } with hs2
  have hm2 : s2.memories = st.memories ++ [(add args newId nowEpoch st).1] := rfl
  have hmax2 : s2.maxMemories = st.maxMemories := rfl
  have hlen2 : s2.memories.length = st.memories.length + 1 := by
    rw [hm2]
    simp
  have hrowid : (add args newId nowEpoch st).1.id = newId := rfl
  have hn2 : (s2.memories.map (fun m => m.id)).Nodup := by
    rw [hm2, List.map_append]
    refine List.Nodup.append hn (by simp) ?_
    intro a ha hb
    rcases List.mem_map.mp ha with ⟨m, hmm, rfl⟩
    rw [show List.map (fun m => m.id) [(add args newId nowEpoch st).1] = [newId] from rfl] at hb
    exact hfresh m hmm (List.mem_singleton.mp hb)
  by_cases hc : st.memories.length + 1 ≤ st.maxMemories
  · have hle : s2.memories.length ≤ s2.maxMemories := by
      rw [hlen2, hmax2]
      exact hc
    have heq := enforce_limit_of_le s2 hle
    refine ⟨?_, fun _ => ?_, fun h => absurd hc (by omega)⟩
    · rw [hA, heq, hlen2]
      exact hc
    · rw [hA, heq, hm2]
  · have hgt2 : s2.maxMemories < s2.memories.length := by
      rw [hlen2, hmax2]
      omega
    have hL := enforce_limit_length s2 hn2 hgt2
    have hR := removed_perm_take s2 hn2 hgt2
    have hK := removed_le_kept s2 hn2 hgt2
    refine ⟨?_, fun h => absurd h hc, fun _ => ⟨?_, ?_, ?_⟩⟩
    · rw [hA, hL, hmax2]
    · rw [hA, hL, hmax2]
    · rw [hA, ← hm2, hR.length_eq, List.length_take,
        (sortLe_perm evictLe s2.memories).length_eq, hlen2, hmax2]
      omega
    · intro r hr hrnot m hm
      rw [hA] at hrnot hm
      rw [← hm2] at hr
      exact (evictLe_iff r m).mp (hK r hr hrnot m hm)

/-- Concrete one-slot store for the eviction witnesses. -/
def stC1 : StoreState := (add { content := "w" } "m1" 0 (emptyStore 1)).2

/-- Witness for C1 at a concrete input: a second insert into a full
one-slot store leaves one row and removes exactly one. -/
theorem add_evicts_k_least_witness :
    ((stC1.memories.map (fun m => m.id)).Nodup) ∧
    (∀ m ∈ stC1.memories, m.id ≠ "m2") ∧
    (add { content := "x" } "m2" 5 stC1).2.memories.length ≤ stC1.maxMemories ∧
    ((stC1.memories ++ [(add { content := "x" } "m2" 5 stC1).1]).filter
      (fun m => decide (m ∉ (add { content := "x" } "m2" 5 stC1).2.memories))).length
      = stC1.memories.length + 1 - stC1.maxMemories := by
  refine ⟨by decide, by decide, ?_, ?_⟩
  · exact (add_evicts_k_least { content := "x" } "m2" 5 stC1 (by decide) (by decide)).1
  · exact ((add_evicts_k_least { content := "x" } "m2" 5 stC1 (by decide)
      (by decide)).2.2 (by decide)).2.1

/-- Over the limit, the memories component of `_enforce_limit`. -/
theorem enforce_limit_memories_of_gt (s2 : StoreState)
    (hgt : ¬ s2.memories.length ≤ s2.maxMemories) :
    (enforce_limit s2).memories = s2.memories.filter (fun m => decide (m.id ∉
      (((sortLe evictLe s2.memories).take
        (s2.memories.length - s2.maxMemories)).map (fun m => m.id)))) := by
  simp [enforce_limit, hgt]

/-- `_enforce_limit` never touches the summaries table. -/
theorem enforce_limit_summaries (s2 : StoreState) :
    (enforce_limit s2).summaries = s2.summaries := by
  by_cases h : s2.memories.length ≤ s2.maxMemories <;> simp [enforce_limit, h]

/-- `_enforce_limit` never changes the configured maximum. -/
theorem enforce_limit_max (s2 : StoreState) :
    (enforce_limit s2).maxMemories = s2.maxMemories := by
  by_cases h : s2.memories.length ≤ s2.maxMemories <;> simp [enforce_limit, h]

/-- Two store states with equal fields are equal. -/
theorem state_eq_of_fields {a b : StoreState} (h1 : a.memories = b.memories)
    (h2 : a.summaries = b.summaries) (h3 : a.maxMemories = b.maxMemories) : a = b := by
  cases a
  cases b
  cases h1
  cases h2
  cases h3
  rfl

/-- C10: when the store holds exactly `max_memories` rows and every
stored row has been read at least once, `add` returns a fully formed
record but immediately evicts the row it just inserted (its
accessed_count of 0 makes it the unique least row), leaving the store
unchanged; a `get` with the new id then returns an absent result. -/
theorem add_at_capacity_evicts_new (args : AddArgs) (newId : String) (nowEpoch : Int)
    (st : StoreState)
    (hn : (st.memories.map (fun m => m.id)).Nodup)
    (hfresh : ∀ m ∈ st.memories, m.id ≠ newId)
    (hfull : st.memories.length = st.maxMemories)
    (hacc : ∀ m ∈ st.memories, 1 ≤ m.accessed_count) :
    (add args newId nowEpoch st).1.id = newId ∧
    (add args newId nowEpoch st).2 = st ∧
    (get newId (add args newId nowEpoch st).2).1 = none := by
  have hA : (add args newId nowEpoch st).2
      = enforce_limit
        { st with memories := st.memories ++ [(add args newId nowEpoch st).1] } := rfl
  set row := (add args newId nowEpoch st).1 with hrowdef
  set s2 : StoreState := { st with memories := st.memories ++ [row] } with hs2
  have hm2 : s2.memories = st.memories ++ [row] := rfl
  have hmax2 : s2.maxMemories = st.maxMemories := rfl
  have hlen2 : s2.memories.length = st.memories.length + 1 := by
    rw [hm2]
    simp
  have hrowid : row.id = newId := rfl
  have hrowacc : row.accessed_count = 0 := rfl
  have hnle : ¬ s2.memories.length ≤ s2.maxMemories := by
    rw [hlen2, hmax2]
    omega
  have hk : s2.memories.length - s2.maxMemories = 1 := by
    rw [hlen2, hmax2]
    omega
  -- the head of the eviction ordering is the freshly inserted row
  have hperm : List.Perm (sortLe evictLe s2.memories) s2.memories :=
    sortLe_perm evictLe s2.memories
  have hpw := sortLe_pairwise evictLe_trans evictLe_total s2.memories
  have hne : sortLe evictLe s2.memories ≠ [] := by
    intro h
    have := hperm.length_eq
    rw [h, hlen2] at this
    simp at this
  obtain ⟨h0, t, hsorted⟩ : ∃ h0 t, sortLe evictLe s2.memories = h0 :: t := by
    cases hl : sortLe evictLe s2.memories with
    | nil => exact absurd hl hne
    | cons a l => exact ⟨a, l, rfl⟩
  have hhead : h0 = row := by
    by_contra hner
    have hh0mem : h0 ∈ s2.memories := hperm.mem_iff.mp (hsorted ▸ List.mem_cons_self h0 t)
    have hh0st : h0 ∈ st.memories := by
      rw [hm2] at hh0mem
      rcases List.mem_append.mp hh0mem with h | h
      · exact h
      · exact absurd (List.mem_singleton.mp h) hner
    have hge : 1 ≤ h0.accessed_count := hacc h0 hh0st
    have hrowmem : row ∈ sortLe evictLe s2.memories := by
      refine hperm.mem_iff.mpr ?_
      rw [hm2]
      exact List.mem_append.mpr (Or.inr (List.mem_singleton.mpr rfl))
    have hrowt : row ∈ t := by
      rw [hsorted] at hrowmem
      rcases List.mem_cons.mp hrowmem with h | h
      · exact absurd h.symm hner
      · exact h
    have hle0 : evictLe h0 row = true := by
      rw [hsorted] at hpw
      exact (List.pairwise_cons.mp hpw).1 row hrowt
    rw [evictLe_iff, hrowacc] at hle0
    omega
  have hvict : ((sortLe evictLe s2.memories).take
      (s2.memories.length - s2.maxMemories)).map (fun m => m.id) = [newId] := by
    rw [hk, hsorted, hhead]
    simp [hrowid]
  have hfilter : s2.memories.filter (fun m => decide (m.id ∉
      (((sortLe evictLe s2.memories).take
        (s2.memories.length - s2.maxMemories)).map (fun m => m.id)))) = st.memories := by
    rw [hvict, hm2, List.filter_append]
    have h1 : st.memories.filter (fun m => decide (m.id ∉ [newId])) = st.memories := by
      apply List.filter_eq_self.mpr
      intro m hm
      have := hfresh m hm
      simp [this]
    have h2 : [row].filter (fun m => decide (m.id ∉ [newId])) = [] := by
      simp [hrowid]
    rw [h1, h2, List.append_nil]
  have hresmem := enforce_limit_memories_of_gt s2 hnle
  have hressum : (enforce_limit s2).summaries = st.summaries :=
    enforce_limit_summaries s2
  have hresmax : (enforce_limit s2).maxMemories = st.maxMemories :=
    enforce_limit_max s2
  have henf : enforce_limit s2 = st := by
    refine state_eq_of_fields ?_ ?_ ?_
    · rw [hresmem, hfilter]
    · exact hressum
    · exact hresmax
  refine ⟨hrowid, ?_, ?_⟩
  · rw [hA, henf]
  · rw [hA, henf]
    have hf : st.memories.find? (fun m => decide (m.id = newId)) = none :=
      List.find?_eq_none.mpr (fun m hm => by simp [hfresh m hm])
    simp [get, hf]

/-- Witness for C10 at a concrete input: the one-slot store whose single
row has been read once; the next insert evicts itself. -/
def stC10 : StoreState :=
  (get "m1" (add { content := "w" } "m1" 0 (emptyStore 1)).2).2

/-- Witness theorem for C10. -/
theorem add_at_capacity_evicts_new_witness :
    ((stC10.memories.map (fun m => m.id)).Nodup) ∧
    (∀ m ∈ stC10.memories, m.id ≠ "m2") ∧
    stC10.memories.length = stC10.maxMemories ∧
    (∀ m ∈ stC10.memories, 1 ≤ m.accessed_count) ∧
    ((add { content := "x" } "m2" 5 stC10).2 = stC10 ∧
      (get "m2" (add { content := "x" } "m2" 5 stC10).2).1 = none) := by
  refine ⟨by decide, by decide, by decide, by decide, ?_⟩
  have h := add_at_capacity_evicts_new { content := "x" } "m2" 5 stC10
    (by decide) (by decide) (by decide) (by decide)
  exact ⟨h.2.1, h.2.2⟩

end MemStore
